import Mathlib

/-!
Verification of the roko retry-with-backoff library (package `roko`).

Shallow embedding conventions:
* `time.Duration` is a signed 64-bit nanosecond count in Go; the claims never
  approach the overflow boundary, so durations are embedded as `Int`.
* Go `error` values are embedded as `Option GoError`, where `GoError` keeps the
  wrapping structure that `errors.Is` walks (`fmt.Errorf("%w ...", e)` becomes
  `GoError.wrap e`).
* A Go `iter.Seq[time.Duration]` is pull-based and possibly infinite.  Finite
  sequences are embedded as `List Int`; never-ending sequences (the "forever"
  strategies such as `Const`) as `Nat → Int`.
* A `context.Context` is embedded by the only observations the source makes of
  it: whether `ctx.Done()` is closed (`cancelled : Bool`) and what `ctx.Err()`
  reports (`contextErr`).  The `select` between `ctx.Done()` and
  `time.After(nw)` is embedded with the cancellation case taken whenever the
  context is cancelled (the done channel is already closed when the select
  polls, while the timer channel has not fired yet).
* The operation passed to `Retry0`/`Retry1` receives the iteration index and a
  pointer to the next wait; writing through that pointer is embedded by having
  the operation return the new handle value alongside its results:
  `op i nw = (value, new handle value, error)`.  An operation that does not
  touch the handle returns `nw` unchanged.
-/

namespace Roko

/-- `time.Duration`, in nanoseconds. -/
abbrev Duration := Int

/-- `const SentinelDuration = time.Duration(-1)` (backoff.go). -/
def SentinelDuration : Duration := -1

/-- Go errors with the wrapping structure that `errors.Is` unwraps.
`unrecoverableSentinel` is the library's `ErrUnrecoverable`; `canceled` is
`context.Canceled` (the reason a pre-cancelled context reports); `basic id`
is any other leaf error; `wrap e` is `fmt.Errorf("%w ...", e)`. -/
inductive GoError where
  | unrecoverableSentinel
  | canceled
  | basic (id : Nat)
  | wrap (e : GoError)
deriving DecidableEq, Repr

/-- `const ErrUnrecoverable = unrecoverableErr("unrecoverable")` (sequence.go). -/
def ErrUnrecoverable : GoError := .unrecoverableSentinel

/-- `errors.Is(e, ErrUnrecoverable)` for a non-nil error: walk the wrap chain
looking for the unrecoverable sentinel. -/
def isUnrecoverable : GoError → Bool
  | .unrecoverableSentinel => true
  | .canceled => false
  | .basic _ => false
  | .wrap e => isUnrecoverable e

/-- `errors.Is(err, ErrUnrecoverable)` on a possibly-nil error
(`errors.Is(nil, target)` is false). -/
def errIsUnrecoverable : Option GoError → Bool
  | none => false
  | some e => isUnrecoverable e

/-- A transient failure: a non-nil error that does not wrap `ErrUnrecoverable`. -/
def transientErr : Option GoError → Bool
  | none => false
  | some e => !isUnrecoverable e

/-- `ctx.Err()`: `context.Canceled` once the context is cancelled, nil before. -/
def contextErr (cancelled : Bool) : Option GoError :=
  if cancelled then some .canceled else none

/-- `appendSentiel` (backoff.go, name as in the source): after the input
sequence is exhausted, yield `SentinelDuration` once.  On a finite sequence
this appends one sentinel element. -/
def appendSentiel (s : List Duration) : List Duration :=
  s ++ [SentinelDuration]

/-- The observable outcome of one run of a retry driver:
the returned value and error, the number of operation invocations (`calls`),
the durations actually waited in order (`waits`), and the handle values the
backoff iterator exposed to the operation, one per invocation (`seen`). -/
structure RunResult (T : Type) where
  value : T
  err : Option GoError
  calls : Nat
  waits : List Duration
  seen : List Duration
deriving DecidableEq, Repr

/-- The `Retry1` loop (sequence.go) fused with the `Backoff` iterator
(backoff.go) it ranges over, specialised to a finite pause sequence; the
argument list is the output of `appendSentiel`.  Per iteration with handle
value `nw` (a fresh cell holding the next element):
invoke `op i nw`; if `errors.Is(err, ErrUnrecoverable)` return `(t, err)`
(the consumer breaks, `Backoff` returns); if `err` is nil return `(t, nil)`;
otherwise the consumer continues: `Backoff` re-reads the handle (now `nw'`),
stops if `nw' < 0`, stops if the context is cancelled (the `select`), else
waits `nw'` and moves to the next element with `i+1`.  When the iterator ends,
`Retry1` returns the last recorded `(t, err)`.  `Retry0`, `Retry2`, `Retry3`
have the identical loop body modulo the arity of `t`. -/
def retryLoop {T : Type} (cancelled : Bool)
    (op : Nat → Duration → T × Duration × Option GoError) :
    Nat → T → Option GoError → List Duration → RunResult T
  | _, t, e, [] => ⟨t, e, 0, [], []⟩
  | i, _, _, nw :: rest =>
    let r := op i nw
    if errIsUnrecoverable r.2.2 then ⟨r.1, r.2.2, 1, [], [nw]⟩
    else if r.2.2.isNone then ⟨r.1, none, 1, [], [nw]⟩
    else if r.2.1 < 0 then ⟨r.1, r.2.2, 1, [], [nw]⟩
    else if cancelled then ⟨r.1, r.2.2, 1, [], [nw]⟩
    else
      let rr := retryLoop cancelled op (i + 1) r.1 r.2.2 rest
      ⟨rr.value, rr.err, rr.calls + 1, r.2.1 :: rr.waits, nw :: rr.seen⟩

/-- `Retry1(ctx, pauseSeq, f)` (sequence.go) on a finite pause sequence:
start at index 0 with zero values, ranging over `Backoff(ctx, pauseSeq)`,
i.e. over `appendSentiel(pauseSeq)`. -/
def Retry1 {T : Type} [Inhabited T] (cancelled : Bool) (pauseSeq : List Duration)
    (f : Nat → Duration → T × Duration × Option GoError) : RunResult T :=
  retryLoop cancelled f 0 default none (appendSentiel pauseSeq)

/-- `Retry0(ctx, pauseSeq, f)` (sequence.go): the same loop with no success
values (`T = Unit`). -/
def Retry0 (cancelled : Bool) (pauseSeq : List Duration)
    (f : Nat → Duration → Unit × Duration × Option GoError) : RunResult Unit :=
  Retry1 cancelled pauseSeq f

/-- The same fused `Retry1`/`Backoff` loop over a never-ending pause sequence
`seq : Nat → Duration` (on such a sequence `appendSentiel` only forwards, so
iteration `i`'s handle starts at `seq i`).  The loop need not terminate, so it
is run on `fuel`; `none` means the fuel ran out before the driver returned. -/
def retryForever {T : Type} (cancelled : Bool)
    (op : Nat → Duration → T × Duration × Option GoError)
    (seq : Nat → Duration) : Nat → Nat → T → Option GoError → Option (RunResult T)
  | 0, _, _, _ => none
  | fuel + 1, i, _, _ =>
    let r := op i (seq i)
    if errIsUnrecoverable r.2.2 then some ⟨r.1, r.2.2, 1, [], [seq i]⟩
    else if r.2.2.isNone then some ⟨r.1, none, 1, [], [seq i]⟩
    else if r.2.1 < 0 then some ⟨r.1, r.2.2, 1, [], [seq i]⟩
    else if cancelled then some ⟨r.1, r.2.2, 1, [], [seq i]⟩
    else
      match retryForever cancelled op seq fuel (i + 1) r.1 r.2.2 with
      | none => none
      | some rr => some ⟨rr.value, rr.err, rr.calls + 1, r.2.1 :: rr.waits, seq i :: rr.seen⟩

/-- `Retry1` on a never-ending (forever) pause sequence, with fuel. -/
def Retry1Forever {T : Type} [Inhabited T] (cancelled : Bool) (seq : Nat → Duration)
    (f : Nat → Duration → T × Duration × Option GoError) (fuel : Nat) :
    Option (RunResult T) :=
  retryForever cancelled f seq fuel 0 default none

/-- `Retry0` on a never-ending (forever) pause sequence, with fuel. -/
def Retry0Forever (cancelled : Bool) (seq : Nat → Duration)
    (f : Nat → Duration → Unit × Duration × Option GoError) (fuel : Nat) :
    Option (RunResult Unit) :=
  Retry1Forever cancelled seq f fuel

/-- `Const(dur)` (sequence.go): yields `dur` indefinitely (a never-ending
sequence, embedded as a stream). -/
def Const (dur : Duration) : Nat → Duration := fun _ => dur

/-- `rand.N(n)` from math/rand/v2: a value in `[0, n)` when `n > 0`; panics
(embedded as `none`) when `n ≤ 0`.  The random source is embedded as an
arbitrary stream `ρ` of integers, reduced into `[0, n)` by `% n`, so every
value of `[0, n)` is realised by some source and no other value by any. -/
def randN (ρ : Nat → Int) (k : Nat) (n : Int) : Option Int :=
  if 0 < n then some (ρ k % n) else none

/-- `Jitter(seq)` (sequence.go) on a never-ending sequence: the `k`-th output
is `rand.N(seq k)` — the transformer forwards one output per input. -/
def Jitter (ρ : Nat → Int) (seq : Nat → Duration) : Nat → Option Duration :=
  fun k => randN ρ k (seq k)

/-- `Limit(n, seq)` (sequence.go) on a finite sequence, instrumented with the
number of elements pulled from the underlying sequence.  Mirrors the source
loop: pull `nw`; if `n <= 0` stop (the pulled element is dropped); else
decrement `n` and yield `nw`. -/
def limitRun : Int → List Duration → List Duration × Nat
  | _, [] => ([], 0)
  | n, nw :: rest =>
    if n ≤ 0 then ([], 1)
    else
      let r := limitRun (n - 1) rest
      (nw :: r.1, r.2 + 1)

/-- The values `Limit(n, seq)` yields. -/
def Limit (n : Int) (s : List Duration) : List Duration :=
  (limitRun n s).1

/-- Per-step side conditions for a run of the retry loop over a list of pause
elements, starting at iteration index `i`: each element is non-negative (a
pause-sequence element), the operation fails transiently on it, and the
operation leaves the handle unchanged there. -/
def okSteps {T : Type} (op : Nat → Duration → T × Duration × Option GoError) :
    Nat → List Duration → Bool
  | _, [] => true
  | i, nw :: rest =>
    decide (0 ≤ nw) && transientErr (op i nw).2.2 && decide ((op i nw).2.1 = nw)
      && okSteps op (i + 1) rest

/-! ## Helper lemmas -/

lemma transientErr_not_unrec {e : Option GoError} (h : transientErr e = true) :
    errIsUnrecoverable e = false := by
  cases e with
  | none => simp [transientErr] at h
  | some g => simpa [transientErr, errIsUnrecoverable] using h

lemma transientErr_not_nil {e : Option GoError} (h : transientErr e = true) :
    e.isNone = false := by
  cases e with
  | none => simp [transientErr] at h
  | some g => rfl

lemma okSteps_cons {T : Type} (op : Nat → Duration → T × Duration × Option GoError)
    (i : Nat) (nw : Duration) (rest : List Duration)
    (h : okSteps op i (nw :: rest) = true) :
    0 ≤ nw ∧ transientErr (op i nw).2.2 = true ∧ (op i nw).2.1 = nw ∧
      okSteps op (i + 1) rest = true := by
  simp only [okSteps, Bool.and_eq_true, decide_eq_true_eq] at h
  exact ⟨h.1.1.1, h.1.1.2, h.1.2, h.2⟩

lemma okSteps_nonneg {T : Type} (op : Nat → Duration → T × Duration × Option GoError) :
    ∀ (s : List Duration) (i : Nat), okSteps op i s = true → ∀ x ∈ s, 0 ≤ x := by
  intro s
  induction s with
  | nil => intro i _ x hx; simp at hx
  | cons a rest ih =>
    intro i h x hx
    obtain ⟨h0, _, _, hrest⟩ := okSteps_cons op i a rest h
    rcases List.mem_cons.mp hx with rfl | hx
    · exact h0
    · exact ih (i + 1) hrest x hx

/-- From any driver state, when the operation's result is recognised as
unrecoverable, the loop returns that call's value and error at once: one call,
no wait. -/
lemma retryLoop_stop_unrec {T : Type} (c : Bool)
    (op : Nat → Duration → T × Duration × Option GoError)
    (i : Nat) (t : T) (e : Option GoError) (nw : Duration) (rest : List Duration)
    (h : errIsUnrecoverable (op i nw).2.2 = true) :
    retryLoop c op i t e (nw :: rest) = ⟨(op i nw).1, (op i nw).2.2, 1, [], [nw]⟩ := by
  simp [retryLoop, h]

/-- From any driver state, when the operation returns a nil error, the loop
returns that call's value with a nil error at once: one call, no wait. -/
lemma retryLoop_stop_success {T : Type} (c : Bool)
    (op : Nat → Duration → T × Duration × Option GoError)
    (i : Nat) (t : T) (e : Option GoError) (nw : Duration) (rest : List Duration)
    (h : (op i nw).2.2 = none) :
    retryLoop c op i t e (nw :: rest) = ⟨(op i nw).1, none, 1, [], [nw]⟩ := by
  simp [retryLoop, h, errIsUnrecoverable]

/-- From any driver state, when the handle holds a negative value after the
operation returns, the loop returns that call's value and error at once: one
call, no wait — whatever the error and the cancellation state. -/
lemma retryLoop_stop_neg {T : Type} (c : Bool)
    (op : Nat → Duration → T × Duration × Option GoError)
    (i : Nat) (t : T) (e : Option GoError) (nw : Duration) (rest : List Duration)
    (h : (op i nw).2.1 < 0) :
    retryLoop c op i t e (nw :: rest) = ⟨(op i nw).1, (op i nw).2.2, 1, [], [nw]⟩ := by
  simp only [retryLoop]
  by_cases h1 : errIsUnrecoverable (op i nw).2.2 = true
  · simp [h1]
  · by_cases h2 : (op i nw).2.2.isNone = true
    · rw [Option.isNone_iff_eq_none] at h2
      simp [h1, h2]
    · simp [h1, h2, h]

/-- The loop's behaviour on a non-empty list does not depend on the incoming
value/error state (Go only reads those after the iterator ends). -/
lemma retryLoop_cons_state {T : Type} (c : Bool)
    (op : Nat → Duration → T × Duration × Option GoError)
    (i : Nat) (t t' : T) (e e' : Option GoError) (nw : Duration) (rest : List Duration) :
    retryLoop c op i t e (nw :: rest) = retryLoop c op i t' e' (nw :: rest) := by
  simp only [retryLoop]

/-- Running the uncancelled loop over `s ++ [SentinelDuration]` when every
element of `s` is a non-negative pause on which the operation fails
transiently without touching the handle, and the operation leaves the handle
negative on the final (sentinel) call: the run makes `|s| + 1` calls, waits
exactly the elements of `s` in order, exposes `s ++ [SentinelDuration]`
through the handle, and returns the final call's value and error. -/
lemma retryLoop_transient_exhaust {T : Type}
    (op : Nat → Duration → T × Duration × Option GoError) (s : List Duration) :
    ∀ (i : Nat) (t : T) (e : Option GoError),
      okSteps op i s = true →
      (op (i + s.length) SentinelDuration).2.1 < 0 →
      retryLoop false op i t e (s ++ [SentinelDuration]) =
        ⟨(op (i + s.length) SentinelDuration).1,
         (op (i + s.length) SentinelDuration).2.2,
         s.length + 1, s, s ++ [SentinelDuration]⟩ := by
  induction s with
  | nil =>
    intro i t e _ hneg
    simp only [List.length_nil, Nat.add_zero] at hneg ⊢
    simpa using retryLoop_stop_neg false op i t e SentinelDuration [] hneg
  | cons a rest ih =>
    intro i t e hok hneg
    obtain ⟨h0, htr, hpr, hrest⟩ := okSteps_cons op i a rest hok
    have hidx : i + (a :: rest).length = (i + 1) + rest.length := by
      simp only [List.length_cons]; omega
    rw [hidx] at hneg ⊢
    have hnneg : ¬ (op i a).2.1 < 0 := by rw [hpr]; exact not_lt.mpr h0
    have h1 := transientErr_not_unrec htr
    have h2 := transientErr_not_nil htr
    have hih := ih (i + 1) (op i a).1 (op i a).2.2 hrest hneg
    simp only [List.cons_append, retryLoop, List.append_eq, h1, h2,
      Bool.false_eq_true, if_false, if_neg hnneg]
    rw [hih]
    simp [hpr]

/-- One continuing step of the uncancelled loop: transient error, handle left
non-negative — the driver waits the handle value and moves on. -/
lemma retryLoop_step_continue {T : Type}
    (op : Nat → Duration → T × Duration × Option GoError)
    (i : Nat) (t : T) (e : Option GoError) (nw : Duration) (rest : List Duration)
    (h1 : errIsUnrecoverable (op i nw).2.2 = false)
    (h2 : (op i nw).2.2.isNone = false)
    (h3 : ¬ (op i nw).2.1 < 0) :
    retryLoop false op i t e (nw :: rest) =
      ⟨(retryLoop false op (i + 1) (op i nw).1 (op i nw).2.2 rest).value,
       (retryLoop false op (i + 1) (op i nw).1 (op i nw).2.2 rest).err,
       (retryLoop false op (i + 1) (op i nw).1 (op i nw).2.2 rest).calls + 1,
       (op i nw).2.1 :: (retryLoop false op (i + 1) (op i nw).1 (op i nw).2.2 rest).waits,
       nw :: (retryLoop false op (i + 1) (op i nw).1 (op i nw).2.2 rest).seen⟩ := by
  simp [retryLoop, h1, h2, h3]

/-- Splitting an uncancelled run: over `s ++ (nw :: rest)` where on the
elements of `s` the operation fails transiently without touching the handle,
the run performs `s`'s iterations (waiting each element) and then proceeds as
the run over `nw :: rest` from index `i + |s|` — whose outcome does not depend
on the threaded value/error state. -/
lemma retryLoop_okSteps_split {T : Type}
    (op : Nat → Duration → T × Duration × Option GoError) (s : List Duration) :
    ∀ (i : Nat) (t t' : T) (e e' : Option GoError) (nw : Duration) (rest : List Duration),
      okSteps op i s = true →
      retryLoop false op i t e (s ++ nw :: rest) =
        ⟨(retryLoop false op (i + s.length) t' e' (nw :: rest)).value,
         (retryLoop false op (i + s.length) t' e' (nw :: rest)).err,
         (retryLoop false op (i + s.length) t' e' (nw :: rest)).calls + s.length,
         s ++ (retryLoop false op (i + s.length) t' e' (nw :: rest)).waits,
         s ++ (retryLoop false op (i + s.length) t' e' (nw :: rest)).seen⟩ := by
  induction s with
  | nil =>
    intro i t t' e e' nw rest _
    simp only [List.nil_append, List.length_nil, Nat.add_zero]
    rw [retryLoop_cons_state false op i t t' e e' nw rest]
  | cons a s' ih =>
    intro i t t' e e' nw rest hok
    obtain ⟨h0, htr, hpr, hrest⟩ := okSteps_cons op i a s' hok
    have hidx : i + (a :: s').length = (i + 1) + s'.length := by
      simp only [List.length_cons]; omega
    rw [hidx]
    have hnneg : ¬ (op i a).2.1 < 0 := by rw [hpr]; exact not_lt.mpr h0
    have h1 := transientErr_not_unrec htr
    have h2 := transientErr_not_nil htr
    have hih := ih (i + 1) (op i a).1 t' (op i a).2.2 e' nw rest hrest
    rw [List.cons_append,
      retryLoop_step_continue op i t e a (s' ++ nw :: rest) h1 h2 hnneg, hih]
    simp only [List.length_cons, List.cons_append, RunResult.mk.injEq, hpr,
      true_and, and_true]
    all_goals omega

/-- The values yielded by `Limit(n, seq)` are the first `toNat n` elements of
the input. -/
lemma limitRun_fst (s : List Duration) : ∀ (n : Int), (limitRun n s).1 = s.take n.toNat := by
  induction s with
  | nil => intro n; simp [limitRun]
  | cons a rest ih =>
    intro n
    by_cases hn : n ≤ 0
    · have : n.toNat = 0 := Int.toNat_of_nonpos hn
      simp [limitRun, hn, this]
    · have h1 : n.toNat = (n - 1).toNat + 1 := by omega
      have e1 : limitRun n (a :: rest)
          = (a :: (limitRun (n - 1) rest).1, (limitRun (n - 1) rest).2 + 1) := by
        simp [limitRun, hn]
      rw [e1, h1, List.take_succ_cons, ih]

/-- Splitting the sentinel-appended pause list at a valid index `m`:
the first `m` pauses, then element `m`, then the remainder. -/
lemma appendSentiel_split (s : List Duration) (m : Nat) (hm : m ≤ s.length) :
    appendSentiel s =
      s.take m ++ ((appendSentiel s).getD m 0 :: (appendSentiel s).drop (m + 1)) := by
  have hlen : m < (appendSentiel s).length := by
    simp only [appendSentiel, List.length_append, List.length_cons, List.length_nil]
    omega
  conv_lhs => rw [← List.take_append_drop m (appendSentiel s)]
  rw [List.drop_eq_getElem_cons hlen, ← List.getD_eq_getElem (appendSentiel s) 0 hlen]
  congr 1
  show (appendSentiel s).take m = s.take m
  rw [appendSentiel]
  exact List.take_append_of_le_length hm

/-! ## Claims -/

/-- Claim C2: for a finite pause sequence `s` of length `n` (non-negative
pauses) and an operation that fails transiently on every invocation without
overriding the handle, the uncancelled generic driver invokes the operation
exactly `n + 1` times, and the `Backoff` iterator yields `n + 1` iteration
pairs (one per element of `s` plus the final sentinel pair). -/
theorem retry0_transient_count (s : List Duration)
    (op : Nat → Duration → Unit × Duration × Option GoError)
    (hok : okSteps op 0 s = true)
    (hsent : (op s.length SentinelDuration).2.1 < 0) :
    (Retry0 false s op).calls = s.length + 1 ∧
    (Retry0 false s op).seen.length = s.length + 1 := by
  have h := retryLoop_transient_exhaust op s 0 () none hok
    (by rw [Nat.zero_add]; exact hsent)
  unfold Retry0 Retry1 appendSentiel
  rw [h]
  exact ⟨rfl, by simp⟩

theorem retry0_transient_count_witness :
    okSteps (fun (_ : Nat) (nw : Duration) => ((), nw, some (GoError.basic 7))) 0 [2, 3] = true ∧
    ((fun (_ : Nat) (nw : Duration) => ((), nw, some (GoError.basic 7)))
        ([2, 3] : List Duration).length SentinelDuration).2.1 < 0 ∧
    ((Retry0 false [2, 3] (fun _ nw => ((), nw, some (GoError.basic 7)))).calls = 3 ∧
     (Retry0 false [2, 3] (fun _ nw => ((), nw, some (GoError.basic 7)))).seen.length = 3) :=
  ⟨by decide, by decide,
   retry0_transient_count [2, 3] (fun _ nw => ((), nw, some (GoError.basic 7)))
     (by decide) (by decide)⟩

/-- Claim C6: under the same conditions (finite non-negative pause sequence,
always-transient operation that never overrides the handle, no cancellation),
the driver waits exactly the elements of `s`, in order, and the sentinel is
never used as a wait duration. -/
theorem retry0_waits_inorder (s : List Duration)
    (op : Nat → Duration → Unit × Duration × Option GoError)
    (hok : okSteps op 0 s = true)
    (hsent : (op s.length SentinelDuration).2.1 < 0) :
    (Retry0 false s op).waits = s ∧
    SentinelDuration ∉ (Retry0 false s op).waits := by
  have h := retryLoop_transient_exhaust op s 0 () none hok
    (by rw [Nat.zero_add]; exact hsent)
  unfold Retry0 Retry1 appendSentiel
  rw [h]
  refine ⟨rfl, fun hmem => ?_⟩
  have hmem' : SentinelDuration ∈ s := hmem
  have := okSteps_nonneg op s 0 hok SentinelDuration hmem'
  simp [SentinelDuration] at this

theorem retry0_waits_inorder_witness :
    okSteps (fun (_ : Nat) (nw : Duration) => ((), nw, some (GoError.basic 8))) 0 [2, 3] = true ∧
    ((fun (_ : Nat) (nw : Duration) => ((), nw, some (GoError.basic 8)))
        ([2, 3] : List Duration).length SentinelDuration).2.1 < 0 ∧
    ((Retry0 false [2, 3] (fun _ nw => ((), nw, some (GoError.basic 8)))).waits = [2, 3] ∧
     SentinelDuration ∉ (Retry0 false [2, 3] (fun _ nw => ((), nw, some (GoError.basic 8)))).waits) :=
  ⟨by decide, by decide,
   retry0_waits_inorder [2, 3] (fun _ nw => ((), nw, some (GoError.basic 8)))
     (by decide) (by decide)⟩

/-- Claim C9: when the pause sequence is exhausted, the handle value exposed
on the final `Backoff` iteration is exactly `SentinelDuration = -1` ns — the
values exposed across the run are `s` followed by `SentinelDuration` alone,
so exhaustion never surfaces any other negative value. -/
theorem backoff_exhaustion_sentinel (s : List Duration)
    (op : Nat → Duration → Unit × Duration × Option GoError)
    (hok : okSteps op 0 s = true)
    (hsent : (op s.length SentinelDuration).2.1 < 0) :
    (Retry0 false s op).seen = s ++ [SentinelDuration] ∧
    (Retry0 false s op).seen.getLast? = some (-1) ∧
    SentinelDuration = -1 := by
  have h := retryLoop_transient_exhaust op s 0 () none hok
    (by rw [Nat.zero_add]; exact hsent)
  unfold Retry0 Retry1 appendSentiel
  rw [h]
  exact ⟨rfl, List.getLast?_concat s, rfl⟩

theorem backoff_exhaustion_sentinel_witness :
    okSteps (fun (_ : Nat) (nw : Duration) => ((), nw, some (GoError.basic 9))) 0 [2, 3] = true ∧
    ((fun (_ : Nat) (nw : Duration) => ((), nw, some (GoError.basic 9)))
        ([2, 3] : List Duration).length SentinelDuration).2.1 < 0 ∧
    ((Retry0 false [2, 3] (fun _ nw => ((), nw, some (GoError.basic 9)))).seen
        = [2, 3] ++ [SentinelDuration] ∧
     (Retry0 false [2, 3] (fun _ nw => ((), nw, some (GoError.basic 9)))).seen.getLast?
        = some (-1) ∧
     SentinelDuration = -1) :=
  ⟨by decide, by decide,
   backoff_exhaustion_sentinel [2, 3] (fun _ nw => ((), nw, some (GoError.basic 9)))
     (by decide) (by decide)⟩

/-- Claim C7: every sample yielded by `Jitter(Const(d))` lies in the closed
interval `[0, d]`, for every choice of the random source. -/
theorem jitter_const_in_range (d : Duration) (ρ : Nat → Int) (k : Nat) (x : Int)
    (h : Jitter ρ (Const d) k = some x) : 0 ≤ x ∧ x ≤ d := by
  unfold Jitter randN Const at h
  by_cases hd : 0 < d
  · rw [if_pos hd] at h
    obtain rfl : ρ k % d = x := Option.some.inj h
    exact ⟨Int.emod_nonneg (ρ k) hd.ne', (Int.emod_lt_of_pos (ρ k) hd).le⟩
  · rw [if_neg hd] at h
    exact absurd h (by simp)

theorem jitter_const_in_range_witness :
    Jitter (fun _ => 5) (Const 3) 0 = some 2 ∧ ((0 : Int) ≤ 2 ∧ (2 : Int) ≤ 3) :=
  ⟨by decide, jitter_const_in_range 3 (fun _ => 5) 0 2 (by decide)⟩

/-- Claim C8: `Limit(n, seq)` yields exactly `min(n, |seq|)` values, namely
the first elements of `seq` in order; `n ≤ 0` yields none
(`toNat` clamps a non-positive `n` to `0`). -/
theorem limit_yields_min (n : Int) (s : List Duration) :
    Limit n s = s.take n.toNat ∧ (Limit n s).length = min n.toNat s.length := by
  have h : Limit n s = s.take n.toNat := limitRun_fst s n
  exact ⟨h, by rw [h]; exact List.length_take n.toNat s⟩

/-- Claim C10: for `n ≤ 0` and a non-empty input, `Limit(n, seq)` yields no
values but still pulls exactly one element from the underlying sequence
before terminating (the `n <= 0` check runs only after the first pull). -/
theorem limit_nonpos_advances_once (n : Int) (s : List Duration)
    (hn : n ≤ 0) (hs : s ≠ []) :
    Limit n s = [] ∧ (limitRun n s).2 = 1 := by
  cases s with
  | nil => exact absurd rfl hs
  | cons a rest => exact ⟨by simp [Limit, limitRun, hn], by simp [limitRun, hn]⟩

/-- Claim C3: if during iteration `i` the operation overwrites the handle
with the sentinel (any negative duration), the uncancelled generic driver
terminates after that iteration — `i + 1` calls in total, with no wait
performed for iteration `i` (the waits are exactly the first `i` pauses) —
and the returned value and error are the ones produced by iteration `i`'s
call, not retroactively skipped. -/
theorem retry0_override_terminates (s : List Duration)
    (op : Nat → Duration → Unit × Duration × Option GoError) (i : Nat)
    (his : i ≤ s.length)
    (hok : okSteps op 0 (s.take i) = true)
    (hneg : (op i ((appendSentiel s).getD i 0)).2.1 < 0) :
    Retry0 false s op =
      ⟨(op i ((appendSentiel s).getD i 0)).1,
       (op i ((appendSentiel s).getD i 0)).2.2,
       i + 1, s.take i, s.take i ++ [(appendSentiel s).getD i 0]⟩ := by
  obtain ⟨nwI, hnwI⟩ : ∃ x, (appendSentiel s).getD i 0 = x := ⟨_, rfl⟩
  rw [hnwI] at hneg ⊢
  have hsplit := appendSentiel_split s i his
  rw [hnwI] at hsplit
  have htl : (s.take i).length = i := by rw [List.length_take]; omega
  unfold Retry0 Retry1
  rw [hsplit, retryLoop_okSteps_split op (s.take i) 0 default default none none nwI
      ((appendSentiel s).drop (i + 1)) hok, htl, Nat.zero_add,
    retryLoop_stop_neg false op i default none nwI ((appendSentiel s).drop (i + 1)) hneg]
  simp only [RunResult.mk.injEq, List.append_nil, true_and, and_true]
  all_goals omega

theorem retry0_override_terminates_witness :
    1 ≤ ([2, 3, 4] : List Duration).length ∧
    okSteps (fun (i : Nat) (nw : Duration) =>
      ((), if i = 1 then (-1 : Int) else nw, some (GoError.basic 9))) 0
      (([2, 3, 4] : List Duration).take 1) = true ∧
    ((fun (i : Nat) (nw : Duration) =>
        ((), if i = 1 then (-1 : Int) else nw, some (GoError.basic 9))) 1
      ((appendSentiel [2, 3, 4]).getD 1 0)).2.1 < 0 ∧
    Retry0 false [2, 3, 4]
        (fun i nw => ((), if i = 1 then (-1 : Int) else nw, some (GoError.basic 9)))
      = ⟨(), some (GoError.basic 9), 2, [2], [2, 3]⟩ :=
  ⟨by decide, by decide, by decide,
   retry0_override_terminates [2, 3, 4]
     (fun i nw => ((), if i = 1 then (-1 : Int) else nw, some (GoError.basic 9))) 1
     (by decide) (by decide) (by decide)⟩

/-- Claim C4: if the operation returns an error wrapping `ErrUnrecoverable`
(per the `errors.Is` chain) on its `k`-th invocation (1-based) and
non-unrecoverable errors before (without overriding the handle), the
uncancelled generic driver returns that error together with that invocation's
values (not zeroed), performs exactly `k` invocations and exactly `k - 1`
waits. -/
theorem retry1_unrecoverable_returns {T : Type} [Inhabited T] (k : Nat)
    (s : List Duration) (op : Nat → Duration → T × Duration × Option GoError)
    (hk : 1 ≤ k) (hks : k - 1 ≤ s.length)
    (hok : okSteps op 0 (s.take (k - 1)) = true)
    (hunrec : errIsUnrecoverable
      (op (k - 1) ((appendSentiel s).getD (k - 1) 0)).2.2 = true) :
    Retry1 false s op =
      ⟨(op (k - 1) ((appendSentiel s).getD (k - 1) 0)).1,
       (op (k - 1) ((appendSentiel s).getD (k - 1) 0)).2.2,
       k, s.take (k - 1), s.take (k - 1) ++ [(appendSentiel s).getD (k - 1) 0]⟩ := by
  obtain ⟨nwK, hnwK⟩ : ∃ x, (appendSentiel s).getD (k - 1) 0 = x := ⟨_, rfl⟩
  rw [hnwK] at hunrec ⊢
  have hsplit := appendSentiel_split s (k - 1) hks
  rw [hnwK] at hsplit
  have htl : (s.take (k - 1)).length = k - 1 := by rw [List.length_take]; omega
  unfold Retry1
  rw [hsplit, retryLoop_okSteps_split op (s.take (k - 1)) 0 default default none none nwK
      ((appendSentiel s).drop (k - 1 + 1)) hok, htl, Nat.zero_add,
    retryLoop_stop_unrec false op (k - 1) default none nwK
      ((appendSentiel s).drop (k - 1 + 1)) hunrec]
  simp only [RunResult.mk.injEq, List.append_nil, true_and, and_true]
  all_goals omega

theorem retry1_unrecoverable_returns_witness :
    1 ≤ 2 ∧ 2 - 1 ≤ ([2, 3, 4] : List Duration).length ∧
    okSteps (fun (i : Nat) (nw : Duration) =>
      (i + 10, nw, if i = 1 then some (GoError.wrap GoError.unrecoverableSentinel)
                   else some (GoError.basic 1))) 0
      (([2, 3, 4] : List Duration).take (2 - 1)) = true ∧
    errIsUnrecoverable ((fun (i : Nat) (nw : Duration) =>
      (i + 10, nw, if i = 1 then some (GoError.wrap GoError.unrecoverableSentinel)
                   else some (GoError.basic 1))) (2 - 1)
      ((appendSentiel [2, 3, 4]).getD (2 - 1) 0)).2.2 = true ∧
    Retry1 false [2, 3, 4]
        (fun i nw => (i + 10, nw,
          if i = 1 then some (GoError.wrap GoError.unrecoverableSentinel)
          else some (GoError.basic 1)))
      = ⟨11, some (GoError.wrap GoError.unrecoverableSentinel), 2, [2], [2, 3]⟩ :=
  ⟨by decide, by decide, by decide, by decide,
   retry1_unrecoverable_returns 2 [2, 3, 4]
     (fun i nw => (i + 10, nw,
       if i = 1 then some (GoError.wrap GoError.unrecoverableSentinel)
       else some (GoError.basic 1)))
     (by decide) (by decide) (by decide) (by decide)⟩

/-- Claim C5: if the operation returns a nil error on its `k`-th invocation
(1-based) and transient errors before (without overriding the handle), the
uncancelled generic driver returns a nil error together with that
invocation's values, performs exactly `k` invocations and exactly `k - 1`
waits. -/
theorem retry1_success_returns {T : Type} [Inhabited T] (k : Nat)
    (s : List Duration) (op : Nat → Duration → T × Duration × Option GoError)
    (hk : 1 ≤ k) (hks : k - 1 ≤ s.length)
    (hok : okSteps op 0 (s.take (k - 1)) = true)
    (hnil : (op (k - 1) ((appendSentiel s).getD (k - 1) 0)).2.2 = none) :
    Retry1 false s op =
      ⟨(op (k - 1) ((appendSentiel s).getD (k - 1) 0)).1, none,
       k, s.take (k - 1), s.take (k - 1) ++ [(appendSentiel s).getD (k - 1) 0]⟩ := by
  obtain ⟨nwK, hnwK⟩ : ∃ x, (appendSentiel s).getD (k - 1) 0 = x := ⟨_, rfl⟩
  rw [hnwK] at hnil ⊢
  have hsplit := appendSentiel_split s (k - 1) hks
  rw [hnwK] at hsplit
  have htl : (s.take (k - 1)).length = k - 1 := by rw [List.length_take]; omega
  unfold Retry1
  rw [hsplit, retryLoop_okSteps_split op (s.take (k - 1)) 0 default default none none nwK
      ((appendSentiel s).drop (k - 1 + 1)) hok, htl, Nat.zero_add,
    retryLoop_stop_success false op (k - 1) default none nwK
      ((appendSentiel s).drop (k - 1 + 1)) hnil]
  simp only [RunResult.mk.injEq, List.append_nil, true_and, and_true]
  all_goals omega

theorem retry1_success_returns_witness :
    1 ≤ 3 ∧ 3 - 1 ≤ ([2, 3, 4] : List Duration).length ∧
    okSteps (fun (i : Nat) (nw : Duration) =>
      (i + 100, nw, if i = 2 then none else some (GoError.basic 4))) 0
      (([2, 3, 4] : List Duration).take (3 - 1)) = true ∧
    ((fun (i : Nat) (nw : Duration) =>
        (i + 100, nw, if i = 2 then none else some (GoError.basic 4))) (3 - 1)
      ((appendSentiel [2, 3, 4]).getD (3 - 1) 0)).2.2 = none ∧
    Retry1 false [2, 3, 4]
        (fun i nw => (i + 100, nw, if i = 2 then none else some (GoError.basic 4)))
      = ⟨102, none, 3, [2, 3], [2, 3, 4]⟩ :=
  ⟨by decide, by decide, by decide, by decide,
   retry1_success_returns 3 [2, 3, 4]
     (fun i nw => (i + 100, nw, if i = 2 then none else some (GoError.basic 4)))
     (by decide) (by decide) (by decide) (by decide)⟩

/-- Claim C1 as stated is false on the code: with a pre-cancelled context and
the forever strategy `Const 1` and an operation returning a transient error,
`Retry0` invokes the operation exactly once but returns the operation's
error — not the token's reason (`ctx.Err() = context.Canceled`). -/
theorem retry0_forever_precancelled_cex :
    Retry0Forever true (Const 1) (fun _ nw => ((), nw, some (GoError.basic 0))) 1
      = some ⟨(), some (GoError.basic 0), 1, [], [1]⟩ ∧
    some (GoError.basic 0) ≠ contextErr true :=
  ⟨by decide, by decide⟩

/-- Claim C1 (amended): with a pre-cancelled token and a forever strategy,
the operation is invoked exactly once with no waits, and the generic driver
returns that single invocation's value and error (it never returns the
token's reason). -/
theorem retry1_forever_precancelled {T : Type} [Inhabited T] (seq : Nat → Duration)
    (f : Nat → Duration → T × Duration × Option GoError) (fuel : Nat)
    (hf : 1 ≤ fuel) :
    Retry1Forever true seq f fuel =
      some ⟨(f 0 (seq 0)).1, (f 0 (seq 0)).2.2, 1, [], [seq 0]⟩ := by
  obtain ⟨fuel', rfl⟩ : ∃ m, fuel = m + 1 := ⟨fuel - 1, by omega⟩
  unfold Retry1Forever
  simp only [retryForever]
  by_cases h1 : errIsUnrecoverable (f 0 (seq 0)).2.2 = true
  · simp [h1]
  · by_cases h2 : (f 0 (seq 0)).2.2.isNone = true
    · have h2' := Option.isNone_iff_eq_none.mp h2
      simp [h1, h2, h2']
    · by_cases h3 : (f 0 (seq 0)).2.1 < 0
      · simp [h1, h2, h3]
      · simp [h1, h2, h3]

theorem retry1_forever_precancelled_witness :
    1 ≤ 1 ∧
    Retry1Forever true (Const 2) (fun _ nw => ((), nw, some (GoError.basic 3))) 1
      = some ⟨(), some (GoError.basic 3), 1, [], [2]⟩ :=
  ⟨Nat.le_refl 1,
   retry1_forever_precancelled (Const 2)
     (fun _ nw => ((), nw, some (GoError.basic 3))) 1 (Nat.le_refl 1)⟩

theorem limit_nonpos_advances_once_witness :
    (0 : Int) ≤ 0 ∧ ([5] : List Duration) ≠ [] ∧
    (Limit 0 [5] = [] ∧ (limitRun 0 ([5] : List Duration)).2 = 1) :=
  ⟨by decide, by decide, limit_nonpos_advances_once 0 [5] (by decide) (by decide)⟩

end Roko
